import Mathlib

/-!
Shallow embedding of a portfolio of small Streamlit financial dashboards:
a dividend/TDS auditor (01_DiviTrack_Dividend_Analytics/app.py), a FIRE
Monte-Carlo simulator (02_FreedomCalc_FIRE_Simulator/app.py) and an expense
tracker (app.py).  Monetary amounts are modelled by rationals; dates by a
year/month/day record; the market-data fetch by an explicit function
argument returning Except; UI and timing side effects by an explicit
effect trace.  Each definition is translated from the Python source file
named above it.
-/

namespace DiviTrack

/-- A calendar date, as carried by the pandas timestamps in the source:
year, month (1..12), day (1..31). -/
structure SDate where
  year : Int
  month : Nat
  day : Nat
deriving DecidableEq, Repr

/-- Chronological strict order on dates, as the comparison of two pandas
timestamps at midnight: lexicographic on (year, month, day). -/
def dateLtB (a b : SDate) : Bool :=
  decide (a.year < b.year) ||
    (decide (a.year = b.year) &&
      (decide (a.month < b.month) ||
        (decide (a.month = b.month) && decide (a.day < b.day))))

/-- From app.py lines 13-18 (get_financial_year): the Indian financial-year
label of a date, FY runs April to March.  Python f-string interpolation of
the two two-digit year remainders becomes explicit string concatenation;
Python mod on ints with positive modulus is Int.emod, which is the meaning
of the percent operator on Int here. -/
def get_financial_year (d : SDate) : String :=
  if d.month ≥ 4 then
    "FY" ++ toString (d.year % 100) ++ "-" ++ toString ((d.year + 1) % 100)
  else
    "FY" ++ toString ((d.year - 1) % 100) ++ "-" ++ toString (d.year % 100)

/-- From app.py lines 20-22 (get_quarter): the calendar quarter label of a
date. -/
def get_quarter (d : SDate) : String :=
  "Q" ++ toString ((d.month - 1) / 3 + 1)

/-- One entry of a fetched dividend history (stock.dividends): an ex-date
and a per-share amount. -/
structure Event where
  date : SDate
  amount : ℚ
deriving DecidableEq, Repr

/-- One portfolio entry, as appended to st.session_state.portfolio
(app.py lines 109-114). -/
structure Holding where
  ticker : String
  name : String
  qty : Nat
  buyDate : SDate
deriving DecidableEq, Repr

/-- One row of the all_payouts table (app.py lines 166-176). -/
structure Row where
  stock : String
  symbol : String
  exDate : SDate
  financialYear : String
  calendarYear : Int
  quarter : String
  dividendPerShare : ℚ
  qty : Nat
  grossAmount : ℚ
deriving DecidableEq, Repr

/-- Round-half-to-even on a rational, the semantics of Python round on the
scaled value. -/
def roundHalfEven (q : ℚ) : Int :=
  if q - ⌊q⌋ < 1/2 then ⌊q⌋
  else if q - ⌊q⌋ > 1/2 then ⌊q⌋ + 1
  else if ⌊q⌋ % 2 = 0 then ⌊q⌋ else ⌊q⌋ + 1

/-- Python round(x, 2): round half to even at two decimal places. -/
def round2 (x : ℚ) : ℚ := (roundHalfEven (x * 100) : ℚ) / 100

/-- From app.py lines 157: my_dividends keeps the history entries whose
index is strictly later than the purchase date. -/
def my_dividends (history : List Event) (buyDate : SDate) : List Event :=
  history.filter (fun e => dateLtB buyDate e.date)

/-- From app.py lines 159-176: the record appended to all_payouts for one
dividend event of one holding.  payout = amount * qty, Gross Amount is
round(payout, 2). -/
def payoutRow (h : Holding) (e : Event) : Row :=
  { stock := h.name
    symbol := h.ticker
    exDate := e.date
    financialYear := get_financial_year e.date
    calendarYear := e.date.year
    quarter := get_quarter e.date
    dividendPerShare := e.amount
    qty := h.qty
    grossAmount := round2 (e.amount * (h.qty : ℚ)) }

/-- The payout rows one holding contributes: its fetched history filtered
past the buy date, then one row per remaining event (app.py lines 155-176). -/
def rowsFor (h : Holding) (history : List Event) : List Row :=
  (my_dividends history h.buyDate).map (payoutRow h)

/-- The observable side effects the processing loop performs: the
time.sleep rate limit, the progress-bar update, and the st.error message on
a failed fetch.  The loop performs no file or other durable write. -/
inductive EngineEffect where
  | sleep : EngineEffect
  | progressUpdate : EngineEffect
  | uiError : EngineEffect
  | fileWrite : EngineEffect
deriving DecidableEq, Repr

/-- True exactly on effects that write durable state outside RAM. -/
def isDurableWrite : EngineEffect → Bool
  | EngineEffect.fileWrite => true
  | _ => false

/-- One iteration of the portfolio fetch loop (app.py lines 141-179): the
sleep and the progress update always run; then the fetch either yields a
history, whose filtered events become rows, or raises, in which case the
holding contributes no rows and an error message is shown. -/
def processHolding (fetch : Holding → Except String (List Event))
    (h : Holding) : List Row × List EngineEffect :=
  match fetch h with
  | Except.ok history =>
      (rowsFor h history, [EngineEffect.sleep, EngineEffect.progressUpdate])
  | Except.error _ =>
      ([], [EngineEffect.sleep, EngineEffect.progressUpdate,
            EngineEffect.uiError])

/-- The whole fetch loop over the in-memory portfolio (app.py lines
141-181), accumulating all_payouts and the effect trace in order. -/
def runEngine (fetch : Holding → Except String (List Event)) :
    List Holding → List Row × List EngineEffect
  | [] => ([], [])
  | h :: hs =>
      let p := processHolding fetch h
      let rest := runEngine fetch hs
      (p.1 ++ rest.1, p.2 ++ rest.2)

/-- The grouping key of the TDS computation: (Symbol, Financial Year)
(app.py line 188). -/
def rowKey (r : Row) : String × String := (r.symbol, r.financialYear)

/-- The summed Gross Amount of one (Symbol, Financial Year) group of a
payout table (the groupby-sum of app.py line 188). -/
def groupSum (rows : List Row) (k : String × String) : ℚ :=
  ((rows.filter (fun r => decide (rowKey r = k))).map Row.grossAmount).sum

/-- The TDS lambda of app.py line 189: x * 0.10 if x > 5000 else 0. -/
def tdsOf (x : ℚ) : ℚ := if x > 5000 then x * 0.10 else 0

/-- The distinct (Symbol, Financial Year) keys of a payout table. -/
def groupKeys (rows : List Row) : List (String × String) :=
  (rows.map rowKey).dedup

/-- From app.py lines 188-189: tds_grouping, one entry per (Symbol,
Financial Year) group, carrying the group key, the summed Gross Amount and
the TDS Deducted column. -/
def tds_grouping (rows : List Row) :
    List ((String × String) × ℚ × ℚ) :=
  (groupKeys rows).map (fun k => (k, groupSum rows k, tdsOf (groupSum rows k)))

/-- From app.py line 191: the summed TDS Deducted column. -/
def total_tds_liability (rows : List Row) : ℚ :=
  ((tds_grouping rows).map (fun e => e.2.2)).sum

/-- From app.py lines 220, 225: the drill-down filter keeps the rows of the
selected calendar year or financial year. -/
def filtered_df (rows : List Row) (pred : Row → Bool) : List Row :=
  rows.filter pred

/-- From app.py lines 233-234: the drill-down TDS metric regroups only the
filtered rows by (Symbol, Financial Year) and reapplies the threshold
lambda to the filtered group sums. -/
def year_tds_val (rows : List Row) (pred : Row → Bool) : ℚ :=
  ((groupKeys (filtered_df rows pred)).map
    (fun k => tdsOf (groupSum (filtered_df rows pred) k))).sum

/-- The value the specification attributes to the drill-down: for each
(Symbol, Financial Year) group represented in the selected window, the TDS
derived from that group FULL financial-year cumulative gross amount over
the whole table, so the portion of the globally computed TDS attributable
to the window.  This definition follows the words of the spec, for
comparison with year_tds_val translated from the code. -/
def windowTdsFromFullFY (rows : List Row) (pred : Row → Bool) : ℚ :=
  ((groupKeys (filtered_df rows pred)).map
    (fun k => tdsOf (groupSum rows k))).sum

/-- The per-event stamp the spec describes: each individual event whose
(Symbol, Financial Year) group crossed the 5000 threshold bears 10 percent
withholding on its own gross amount.  This definition follows the words of
the spec, for comparison with the grouped computation of the code. -/
def eventStamp (rows : List Row) (r : Row) : ℚ :=
  if groupSum rows (rowKey r) > 5000 then r.grossAmount * 0.10 else 0

/-- From app.py lines 192-194, the remaining dashboard metrics: total gross
dividend, slab income tax and post-tax profit.  All are pure functions of
the payout table and the selected slab. -/
def dashboardMetrics (rows : List Row) (taxSlab : ℚ) : ℚ × ℚ × ℚ × ℚ :=
  let totalGross := (rows.map Row.grossAmount).sum
  let incomeTax := totalGross * (taxSlab / 100)
  (totalGross, total_tds_liability rows, incomeTax, totalGross - incomeTax)

/-- The processing engine plus the analysis block (app.py lines 132-194):
runs the fetch loop, then computes the dashboard metrics from the in-memory
table.  The analysis is pure, so the effect trace is that of the loop. -/
def fullRun (fetch : Holding → Except String (List Event))
    (portfolio : List Holding) (taxSlab : ℚ) :
    (ℚ × ℚ × ℚ × ℚ) × List Row × List EngineEffect :=
  let e := runEngine fetch portfolio
  (dashboardMetrics e.1 taxSlab, e.1, e.2)

/-- The financial-year label the specification ascribes to a payout dated
in year y and month m: an April-to-March fiscal year, labelled by the two
year remainders mod 100.  This definition follows the words of the spec,
for comparison with get_financial_year translated from the code. -/
def claimFYLabel (y : Int) (m : Nat) : String :=
  if 4 ≤ m then
    "FY" ++ toString (y % 100) ++ "-" ++ toString ((y + 1) % 100)
  else
    "FY" ++ toString ((y - 1) % 100) ++ "-" ++ toString (y % 100)

/-- The calendar-quarter label the specification ascribes to a payout in
month m.  This definition follows the words of the spec, for comparison
with get_quarter translated from the code. -/
def claimQuarterLabel (m : Nat) : String :=
  "Q" ++ toString ((m - 1) / 3 + 1)

/-- A concrete holding used to exercise the engine. -/
def exHolding : Holding :=
  { ticker := "AAA.NS", name := "Alpha", qty := 100,
    buyDate := ⟨2023, 1, 1⟩ }

/-- A concrete dividend event dated after the purchase date of exHolding. -/
def exEvent : Event := { date := ⟨2024, 5, 10⟩, amount := 2 }

/-- A concrete fetch in which every holding has exactly one dividend. -/
def exFetch : Holding → Except String (List Event) :=
  fun _ => Except.ok [exEvent]

/-- A concrete fetch that raises on the ticker BAD and succeeds with one
dividend on every other holding. -/
def badFetch : Holding → Except String (List Event) :=
  fun hld =>
    if hld.ticker = "BAD" then Except.error "boom"
    else Except.ok [{ date := ⟨2024, 5, 10⟩, amount := 2 }]

/-- A concrete holding badFetch succeeds on. -/
def goodHolding1 : Holding :=
  { ticker := "AAA.NS", name := "Alpha", qty := 10,
    buyDate := ⟨2023, 1, 1⟩ }

/-- A concrete holding badFetch raises on. -/
def badHolding : Holding :=
  { ticker := "BAD", name := "Bad", qty := 10, buyDate := ⟨2023, 1, 1⟩ }

/-- A second concrete holding badFetch succeeds on. -/
def goodHolding2 : Holding :=
  { ticker := "CCC.NS", name := "Gamma", qty := 20,
    buyDate := ⟨2023, 1, 1⟩ }

end DiviTrack

namespace FreedomCalc

/-- From 02_FreedomCalc_FIRE_Simulator/app.py lines 50-52, the growth-phase
monthly step: grow by the monthly rate, add the SIP contribution.  No clamp
is applied in this phase. -/
def growthStep (r contrib c : ℚ) : ℚ := c * (1 + r) + contrib

/-- From app.py lines 57-59, the withdrawal-phase monthly step: grow by the
monthly rate, subtract the monthly expense, clamp at zero. -/
def withdrawalStep (r expense c : ℚ) : ℚ :=
  let c2 := c * (1 + r) - expense
  if c2 < 0 then 0 else c2

/-- The list of corpus values appended during the growth phase of the
deterministic projection (app.py lines 50-52), one per month. -/
def growthPath (r contrib : ℚ) : ℚ → Nat → List ℚ
  | _, 0 => []
  | c, n + 1 =>
      let c2 := growthStep r contrib c
      c2 :: growthPath r contrib c2 n

/-- The corpus after n growth-phase months (the value of the corpus
variable when the growth loop of app.py lines 50-52 exits). -/
def growthCorpus (r contrib savings : ℚ) : Nat → ℚ
  | 0 => savings
  | n + 1 => growthStep r contrib (growthCorpus r contrib savings n)

/-- The list of corpus values appended during the withdrawal phase of the
deterministic projection (app.py lines 57-60), one per month. -/
def withdrawalPath (r expense : ℚ) : ℚ → Nat → List ℚ
  | _, 0 => []
  | c, n + 1 =>
      let c2 := withdrawalStep r expense c
      c2 :: withdrawalPath r expense c2 n

/-- From app.py lines 46-60: the full deterministic future_portfolio list,
growth phase followed by withdrawal phase continuing from the corpus the
growth loop left behind. -/
def future_portfolio (r savings contrib expense : ℚ)
    (monthsInvest monthsRetire : Nat) : List ℚ :=
  growthPath r contrib savings monthsInvest ++
    withdrawalPath r expense (growthCorpus r contrib savings monthsInvest)
      monthsRetire

/-- From app.py lines 73-84, one Monte-Carlo month at index m: grow by the
drawn random return, add the SIP while m is before retirement, otherwise
subtract the expense, then clamp at zero before appending. -/
def mcStep (ret : Nat → ℚ) (contrib expense : ℚ) (monthsInvest : Nat)
    (m : Nat) (c : ℚ) : ℚ :=
  let c2 :=
    if m < monthsInvest then c * (1 + ret m) + contrib
    else c * (1 + ret m) - expense
  if c2 < 0 then 0 else c2

/-- The sim_path list of one Monte-Carlo simulation (app.py lines 65-84),
parametrised by the sequence of drawn monthly returns; the second Nat is
the number of months still to simulate, the first the current month index. -/
def mcPathAux (ret : Nat → ℚ) (contrib expense : ℚ) (monthsInvest : Nat) :
    ℚ → Nat → Nat → List ℚ
  | _, _, 0 => []
  | c, m, n + 1 =>
      let c2 := mcStep ret contrib expense monthsInvest m c
      c2 :: mcPathAux ret contrib expense monthsInvest c2 (m + 1) n

/-- One full Monte-Carlo simulation path of total_months values starting
from the current savings (app.py lines 65-84). -/
def sim_path (ret : Nat → ℚ) (savings contrib expense : ℚ)
    (monthsInvest totalMonths : Nat) : List ℚ :=
  mcPathAux ret contrib expense monthsInvest savings 0 totalMonths

end FreedomCalc

namespace ExpenseTracker

/-- One row of the expenses table, with the four columns the form submits
(app.py lines 47-52). -/
structure ExpenseRow where
  date : DiviTrack.SDate
  category : String
  amount : ℚ
  description : String
deriving DecidableEq, Repr

/-- The durable store behind expenses.csv: none when the file does not
exist, otherwise the list of stored rows. -/
def Store := Option (List ExpenseRow)

/-- From app.py lines 12-16 (load_data): read the stored rows, or an empty
table when the file does not exist. -/
def load_data (s : Store) : List ExpenseRow :=
  match s with
  | none => []
  | some rows => rows

/-- From app.py lines 19-20 (save_data): overwrite the file with the given
table. -/
def save_data (rows : List ExpenseRow) : Store := some rows

/-- From app.py lines 45-54, the add-expense handler: load the existing
table, concatenate a single-row frame built from the submitted Date,
Category, Amount and Description, and save the result. -/
def addExpense (s : Store) (d : DiviTrack.SDate) (cat : String) (amt : ℚ)
    (desc : String) : Store :=
  let df := load_data s
  let newData : List ExpenseRow :=
    [{ date := d, category := cat, amount := amt, description := desc }]
  save_data (df ++ newData)

end ExpenseTracker

namespace DiviTrack

lemma list_sum_map_add {α : Type} (l : List α) (f g : α → ℚ) :
    (l.map (fun x => f x + g x)).sum = (l.map f).sum + (l.map g).sum := by
  induction l with
  | nil => simp
  | cons a t ih => simp only [List.map_cons, List.sum_cons, ih]; ring

lemma list_sum_map_mul_const {α : Type} (l : List α) (f : α → ℚ) (c : ℚ) :
    (l.map (fun x => f x * c)).sum = (l.map f).sum * c := by
  induction l with
  | nil => simp
  | cons a t ih => simp only [List.map_cons, List.sum_cons, ih]; ring

lemma list_sum_if_single (k0 : String × String) (c : ℚ) :
    ∀ L : List (String × String), L.Nodup → k0 ∈ L →
      (L.map (fun k => if k0 = k then c else 0)).sum = c := by
  intro L
  induction L with
  | nil => intro _ hk; cases hk
  | cons a t ih =>
    intro hN hk
    rcases List.mem_cons.mp hk with h | h
    · subst h
      have hnot : k0 ∉ t := (List.nodup_cons.mp hN).1
      have ht : (t.map (fun k => if k0 = k then c else 0)).sum = 0 := by
        apply List.sum_eq_zero
        intro x hx
        rcases List.mem_map.mp hx with ⟨k, hkt, rfl⟩
        rw [if_neg]
        intro hEq
        exact hnot (hEq ▸ hkt)
      simp [ht]
    · have ha : k0 ≠ a := by
        rintro rfl
        exact (List.nodup_cons.mp hN).1 h
      simp only [List.map_cons, List.sum_cons, if_neg ha,
        ih (List.nodup_cons.mp hN).2 h, zero_add]

lemma list_sum_fiberwise (f : Row → ℚ) :
    ∀ (rows : List Row) (L : List (String × String)), L.Nodup →
      (∀ r ∈ rows, rowKey r ∈ L) →
      (L.map (fun k =>
        ((rows.filter (fun r => decide (rowKey r = k))).map f).sum)).sum =
      (rows.map f).sum := by
  intro rows
  induction rows with
  | nil =>
    intro L _ _
    simp
  | cons r rs ih =>
    intro L hN hcov
    have step : ∀ k,
        ((List.filter (fun x => decide (rowKey x = k)) (r :: rs)).map f).sum
          = (if rowKey r = k then f r else 0) +
            ((rs.filter (fun x => decide (rowKey x = k))).map f).sum := by
      intro k
      by_cases h : rowKey r = k
      · simp [List.filter_cons, h]
      · simp [List.filter_cons, h]
    have hmap : (L.map (fun k =>
        ((List.filter (fun x => decide (rowKey x = k)) (r :: rs)).map f).sum))
        = L.map (fun k => (if rowKey r = k then f r else 0) +
            ((rs.filter (fun x => decide (rowKey x = k))).map f).sum) := by
      apply List.map_congr_left
      intro k _
      exact step k
    rw [hmap, list_sum_map_add,
      list_sum_if_single (rowKey r) (f r) L hN (hcov r (List.mem_cons_self r rs)),
      ih L hN (fun x hx => hcov x (List.mem_cons_of_mem r hx))]
    simp

lemma groupKeys_nodup (rows : List Row) : (groupKeys rows).Nodup :=
  List.nodup_dedup _

lemma rowKey_mem_groupKeys {rows : List Row} {r : Row} (hr : r ∈ rows) :
    rowKey r ∈ groupKeys rows :=
  List.mem_dedup.mpr (List.mem_map_of_mem rowKey hr)

lemma per_key_stamp (rows : List Row) (k : String × String) :
    tdsOf (groupSum rows k)
      = ((rows.filter (fun r => decide (rowKey r = k))).map
          (eventStamp rows)).sum := by
  by_cases h : groupSum rows k > 5000
  · have hmap : (rows.filter (fun r => decide (rowKey r = k))).map
        (eventStamp rows)
        = (rows.filter (fun r => decide (rowKey r = k))).map
            (fun r => r.grossAmount * 0.10) := by
      apply List.map_congr_left
      intro r hr
      have hk : rowKey r = k :=
        of_decide_eq_true (List.mem_filter.mp hr).2
      simp [eventStamp, hk, h]
    rw [hmap, list_sum_map_mul_const, tdsOf, if_pos h, groupSum]
  · have hmap : (rows.filter (fun r => decide (rowKey r = k))).map
        (eventStamp rows)
        = (rows.filter (fun r => decide (rowKey r = k))).map (fun _ => 0) := by
      apply List.map_congr_left
      intro r hr
      have hk : rowKey r = k :=
        of_decide_eq_true (List.mem_filter.mp hr).2
      simp [eventStamp, hk, h]
    rw [hmap, tdsOf, if_neg h]
    simp

/-- C2: the TDS attribution is an aggregate-then-stamp computation that
applies the resulting withholding rate to every contributing event: the
total TDS liability computed from the (Symbol, Financial Year) group sums
equals the sum, over every individual dividend event, of the 10 percent
stamp an event bears exactly when its group crossed the 5000 threshold. -/
theorem tds_total_eq_sum_of_event_stamps (rows : List Row) :
    total_tds_liability rows = (rows.map (eventStamp rows)).sum := by
  have h1 : total_tds_liability rows
      = ((groupKeys rows).map (fun k => tdsOf (groupSum rows k))).sum := by
    simp only [total_tds_liability, tds_grouping, List.map_map]
    rfl
  rw [h1]
  have h2 : (groupKeys rows).map (fun k => tdsOf (groupSum rows k))
      = (groupKeys rows).map (fun k =>
          ((rows.filter (fun r => decide (rowKey r = k))).map
            (eventStamp rows)).sum) := by
    apply List.map_congr_left
    intro k _
    exact per_key_stamp rows k
  rw [h2]
  exact list_sum_fiberwise (eventStamp rows) rows (groupKeys rows)
    (groupKeys_nodup rows) (fun r hr => rowKey_mem_groupKeys hr)

/-- C3: every entry of tds_grouping carries its group cumulative gross
amount, and its TDS Deducted equals 10 percent of that cumulative amount
when the amount strictly exceeds 5000 and 0 when it is at most 5000; in
particular a cumulative amount of exactly 5000 incurs no TDS. -/
theorem tds_grouping_threshold (rows : List Row)
    (e : (String × String) × ℚ × ℚ) (he : e ∈ tds_grouping rows) :
    e.2.1 = groupSum rows e.1 ∧
    (5000 < e.2.1 → e.2.2 = e.2.1 * (10 / 100)) ∧
    (e.2.1 ≤ 5000 → e.2.2 = 0) := by
  rcases List.mem_map.mp he with ⟨k, _, rfl⟩
  refine ⟨rfl, ?_, ?_⟩
  · intro h
    simp only [tdsOf, if_pos (show groupSum rows k > 5000 from h)]
    norm_num
  · intro h
    simp only [tdsOf, if_neg (show ¬ groupSum rows k > 5000 from not_lt.mpr h)]

/-- Witness for C3 at a concrete table: one company collects exactly 5000
gross in FY24-25 and is charged no TDS, as the boundary clause states. -/
theorem tds_grouping_threshold_witness :
    (("BBB.NS", "FY24-25"), (5000 : ℚ), (0 : ℚ)) ∈ tds_grouping
      [{ stock := "Beta", symbol := "BBB.NS", exDate := ⟨2024, 6, 3⟩,
         financialYear := "FY24-25", calendarYear := 2024, quarter := "Q2",
         dividendPerShare := 50, qty := 100, grossAmount := 5000 }] ∧
    ((5000 : ℚ) ≤ 5000 → (0 : ℚ) = 0) := by
  have hmem : (("BBB.NS", "FY24-25"), (5000 : ℚ), (0 : ℚ)) ∈ tds_grouping
      [{ stock := "Beta", symbol := "BBB.NS", exDate := ⟨2024, 6, 3⟩,
         financialYear := "FY24-25", calendarYear := 2024, quarter := "Q2",
         dividendPerShare := 50, qty := 100, grossAmount := 5000 }] := by
    norm_num [tds_grouping, groupKeys, groupSum, tdsOf, rowKey, List.dedup,
      List.pwFilter]
  exact ⟨hmem, fun h => ((tds_grouping_threshold _ _ hmem).2.2
    (by simp))⟩

/-- C1 counterexample: one company pays 3000 in May 2023 and 3000 in
February 2024, so its FY23-24 cumulative gross is 6000 and the globally
computed TDS is 600, of which 600 is attributable to the FY23-24 window
covering both events.  The calendar-year 2023 drill-down, however,
recomputes the TDS from the single event inside the window (3000, below
the threshold) and reports 0, not a value derived from the full
financial-year cumulative amount: the claim fails for calendar-year
selections. -/
theorem calendar_drilldown_tds_counterexample :
    year_tds_val
      [{ stock := "Alpha", symbol := "AAA.NS", exDate := ⟨2023, 5, 10⟩,
         financialYear := "FY23-24", calendarYear := 2023, quarter := "Q2",
         dividendPerShare := 30, qty := 100, grossAmount := 3000 },
       { stock := "Alpha", symbol := "AAA.NS", exDate := ⟨2024, 2, 10⟩,
         financialYear := "FY23-24", calendarYear := 2024, quarter := "Q1",
         dividendPerShare := 30, qty := 100, grossAmount := 3000 }]
      (fun r => decide (r.calendarYear = 2023)) = 0 ∧
    windowTdsFromFullFY
      [{ stock := "Alpha", symbol := "AAA.NS", exDate := ⟨2023, 5, 10⟩,
         financialYear := "FY23-24", calendarYear := 2023, quarter := "Q2",
         dividendPerShare := 30, qty := 100, grossAmount := 3000 },
       { stock := "Alpha", symbol := "AAA.NS", exDate := ⟨2024, 2, 10⟩,
         financialYear := "FY23-24", calendarYear := 2024, quarter := "Q1",
         dividendPerShare := 30, qty := 100, grossAmount := 3000 }]
      (fun r => decide (r.calendarYear = 2023)) = 600 ∧
    (0 : ℚ) ≠ 600 := by
  refine ⟨?_, ?_, by norm_num⟩ <;>
    norm_num [year_tds_val, windowTdsFromFullFY, filtered_df, groupKeys,
      groupSum, tdsOf, rowKey, List.dedup, List.pwFilter]

/-- C1 amended: for every financial-year drill-down selection the reported
TDS is derived from each (Symbol, Financial Year) group full
financial-year cumulative gross amount, because filtering by a financial
year keeps every event of each group it touches: the recomputation over
the filtered window coincides with the value obtained from the full-table
group sums.  (For calendar-year selections the code instead recomputes
from only the events inside the window, which can differ.) -/
theorem fy_drilldown_tds_window_independent (rows : List Row) (fy : String) :
    year_tds_val rows (fun r => decide (r.financialYear = fy))
      = windowTdsFromFullFY rows (fun r => decide (r.financialYear = fy)) := by
  unfold year_tds_val windowTdsFromFullFY
  congr 1
  apply List.map_congr_left
  intro k hk
  rcases List.mem_map.mp (List.mem_dedup.mp hk) with ⟨r, hrf, hrk⟩
  have hfy : r.financialYear = fy :=
    of_decide_eq_true (List.mem_filter.mp hrf).2
  have hk2 : k.2 = fy := by
    rw [← hrk]
    exact hfy
  have hfilter : (filtered_df rows
        (fun r => decide (r.financialYear = fy))).filter
        (fun r => decide (rowKey r = k))
      = rows.filter (fun r => decide (rowKey r = k)) := by
    unfold filtered_df
    rw [List.filter_filter]
    apply List.filter_congr
    intro a _
    by_cases h : rowKey a = k
    · have ha : a.financialYear = fy := by
        have : a.financialYear = k.2 := by
          rw [← h, rowKey]
        rw [this, hk2]
      simp [h, ha]
    · simp [h]
  congr 1
  unfold groupSum
  rw [hfilter]

lemma engine_row_shape (fetch : Holding → Except String (List Event)) :
    ∀ (p : List Holding) (r : Row), r ∈ (runEngine fetch p).1 →
      ∃ h e, r = payoutRow h e := by
  intro p
  induction p with
  | nil =>
    intro r hr
    simp [runEngine] at hr
  | cons h hs ih =>
    intro r hr
    simp only [runEngine, List.mem_append] at hr
    rcases hr with h1 | h2
    · unfold processHolding at h1
      cases hfetch : fetch h with
      | ok hist =>
        rw [hfetch] at h1
        simp only [rowsFor, List.mem_map] at h1
        rcases h1 with ⟨e, _, he⟩
        exact ⟨h, e, he.symm⟩
      | error msg =>
        rw [hfetch] at h1
        simp at h1
    · exact ih r h2

/-- C4: every row the processing engine emits is bucketed as the spec
states: its Financial Year field is the April-to-March fiscal-year label
computed from the ex-date year and month, its Calendar Year field is the
ex-date year, and its Quarter field is the calendar-quarter label computed
from the ex-date month. -/
theorem engine_rows_bucketed (fetch : Holding → Except String (List Event))
    (p : List Holding) (r : Row) (hr : r ∈ (runEngine fetch p).1) :
    r.financialYear = claimFYLabel r.exDate.year r.exDate.month ∧
    r.calendarYear = r.exDate.year ∧
    r.quarter = claimQuarterLabel r.exDate.month := by
  rcases engine_row_shape fetch p r hr with ⟨h, e, rfl⟩
  exact ⟨rfl, rfl, rfl⟩

/-- Witness for C4: the single row the engine emits for a concrete
portfolio is bucketed as the spec states. -/
theorem engine_rows_bucketed_witness :
    payoutRow exHolding exEvent ∈ (runEngine exFetch [exHolding]).1 ∧
    ((payoutRow exHolding exEvent).financialYear
        = claimFYLabel (payoutRow exHolding exEvent).exDate.year
            (payoutRow exHolding exEvent).exDate.month ∧
      (payoutRow exHolding exEvent).calendarYear
        = (payoutRow exHolding exEvent).exDate.year ∧
      (payoutRow exHolding exEvent).quarter
        = claimQuarterLabel (payoutRow exHolding exEvent).exDate.month) := by
  have hmem : payoutRow exHolding exEvent ∈ (runEngine exFetch [exHolding]).1 := by
    simp [runEngine, processHolding, exFetch, rowsFor, my_dividends,
      exHolding, exEvent, dateLtB]
  exact ⟨hmem, engine_rows_bucketed exFetch [exHolding] _ hmem⟩

/-- C5: when the fetch of one holding raises, the engine contributes no
payout events for it, leaves the events collected from the earlier
holdings unchanged, and still processes every remaining holding: the
payout table of the portfolio with the failing holding in the middle is
exactly the table of the earlier holdings followed by the table of the
later ones. -/
theorem failing_holding_skipped (fetch : Holding → Except String (List Event))
    (p1 p2 : List Holding) (h : Holding) (msg : String)
    (hf : fetch h = Except.error msg) :
    (runEngine fetch (p1 ++ h :: p2)).1
      = (runEngine fetch p1).1 ++ (runEngine fetch p2).1 := by
  induction p1 with
  | nil => simp [runEngine, processHolding, hf]
  | cons a t ih => simp [runEngine, ih, List.append_assoc]

/-- Witness for C5: with a concrete fetch that raises on the middle
holding of a three-holding portfolio, the payout table equals the tables
of the two surviving holdings concatenated. -/
theorem failing_holding_skipped_witness :
    badFetch badHolding = Except.error "boom" ∧
    (runEngine badFetch [goodHolding1, badHolding, goodHolding2]).1
      = (runEngine badFetch [goodHolding1]).1
          ++ (runEngine badFetch [goodHolding2]).1 := by
  have hf : badFetch badHolding = Except.error "boom" := by
    simp [badFetch, badHolding]
  exact ⟨hf,
    failing_holding_skipped badFetch [goodHolding1] [goodHolding2]
      badHolding "boom" hf⟩

/-- C6: the attribution computation has no persistence model: the engine
and the dashboard metrics are pure functions of the in-memory portfolio
and the fetched histories, and the effect trace of a full run contains no
durable write. -/
theorem full_run_writes_nothing_durable
    (fetch : Holding → Except String (List Event)) (p : List Holding)
    (taxSlab : ℚ) :
    ((fullRun fetch p taxSlab).2.2).all (fun e => !isDurableWrite e) = true := by
  have key : ∀ q : List Holding,
      ((runEngine fetch q).2).all (fun e => !isDurableWrite e) = true := by
    intro q
    induction q with
    | nil => rfl
    | cons a t ih =>
      simp only [runEngine, List.all_append, Bool.and_eq_true]
      refine ⟨?_, ih⟩
      cases hfetch : fetch a <;> simp [processHolding, hfetch, isDurableWrite]
  exact key p

/-- C7: the per-holding payout stream keeps exactly the dividend events
dated strictly after the purchase date, and the date comparison is
irreflexive, so an event whose ex-date equals the purchase date is
excluded. -/
theorem dividends_strictly_after_purchase (history : List Event)
    (buy : SDate) (e : Event) :
    (e ∈ my_dividends history buy ↔
      (e ∈ history ∧ dateLtB buy e.date = true)) ∧
    dateLtB buy buy = false := by
  constructor
  · simp [my_dividends, List.mem_filter]
  · simp [dateLtB]

/-- Witness for C7 at concrete dates: an event dated after the purchase
date is kept, and the strict comparison rejects the purchase date itself. -/
theorem dividends_strictly_after_purchase_witness :
    ({ date := ⟨2024, 5, 10⟩, amount := 2 } : Event) ∈ my_dividends
      [{ date := ⟨2024, 5, 10⟩, amount := 2 },
       { date := ⟨2022, 5, 10⟩, amount := 3 }] ⟨2023, 1, 1⟩ ∧
    dateLtB ⟨2023, 1, 1⟩ ⟨2023, 1, 1⟩ = false := by
  refine ⟨(dividends_strictly_after_purchase
      [{ date := ⟨2024, 5, 10⟩, amount := 2 },
       { date := ⟨2022, 5, 10⟩, amount := 3 }] ⟨2023, 1, 1⟩
      { date := ⟨2024, 5, 10⟩, amount := 2 }).1.mpr ⟨?_, ?_⟩,
    (dividends_strictly_after_purchase [] ⟨2023, 1, 1⟩
      { date := ⟨2023, 1, 1⟩, amount := 0 }).2⟩
  · simp
  · simp [dateLtB]

end DiviTrack

namespace FreedomCalc

lemma growthStep_nonneg (r contrib c : ℚ) (hr : -1 < r) (hc : 0 ≤ contrib)
    (h : 0 ≤ c) : 0 ≤ growthStep r contrib c := by
  unfold growthStep
  have h1 : (0 : ℚ) ≤ 1 + r := by linarith
  have h2 := mul_nonneg h h1
  linarith

lemma growthPath_nonneg (r contrib : ℚ) (hr : -1 < r) (hc : 0 ≤ contrib) :
    ∀ (n : Nat) (c : ℚ), 0 ≤ c → ∀ x ∈ growthPath r contrib c n, 0 ≤ x := by
  intro n
  induction n with
  | zero =>
    intro c _ x hx
    simp [growthPath] at hx
  | succ n ih =>
    intro c hc0 x hx
    simp only [growthPath, List.mem_cons] at hx
    rcases hx with rfl | hx
    · exact growthStep_nonneg r contrib c hr hc hc0
    · exact ih _ (growthStep_nonneg r contrib c hr hc hc0) x hx

lemma growthCorpus_nonneg (r contrib savings : ℚ) (hr : -1 < r)
    (hc : 0 ≤ contrib) (hs : 0 ≤ savings) :
    ∀ n, 0 ≤ growthCorpus r contrib savings n := by
  intro n
  induction n with
  | zero => exact hs
  | succ n ih => exact growthStep_nonneg r contrib _ hr hc ih

lemma withdrawalStep_nonneg (r expense c : ℚ) :
    0 ≤ withdrawalStep r expense c := by
  unfold withdrawalStep
  dsimp only
  split
  · exact le_refl (0 : ℚ)
  · next h => exact not_lt.mp h

lemma withdrawalPath_nonneg (r expense : ℚ) :
    ∀ (n : Nat) (c : ℚ), ∀ x ∈ withdrawalPath r expense c n, 0 ≤ x := by
  intro n
  induction n with
  | zero =>
    intro c x hx
    simp [withdrawalPath] at hx
  | succ n ih =>
    intro c x hx
    simp only [withdrawalPath, List.mem_cons] at hx
    rcases hx with rfl | hx
    · exact withdrawalStep_nonneg r expense c
    · exact ih _ x hx

lemma mcStep_nonneg (ret : Nat → ℚ) (contrib expense : ℚ)
    (monthsInvest m : Nat) (c : ℚ) :
    0 ≤ mcStep ret contrib expense monthsInvest m c := by
  unfold mcStep
  dsimp only
  split <;> split
  · exact le_refl (0 : ℚ)
  · next h => exact not_lt.mp h
  · exact le_refl (0 : ℚ)
  · next h => exact not_lt.mp h

lemma mcPathAux_nonneg (ret : Nat → ℚ) (contrib expense : ℚ)
    (monthsInvest : Nat) :
    ∀ (n : Nat) (c : ℚ) (m : Nat),
      ∀ x ∈ mcPathAux ret contrib expense monthsInvest c m n, 0 ≤ x := by
  intro n
  induction n with
  | zero =>
    intro c m x hx
    simp [mcPathAux] at hx
  | succ n ih =>
    intro c m x hx
    simp only [mcPathAux, List.mem_cons] at hx
    rcases hx with rfl | hx
    · exact mcStep_nonneg ret contrib expense monthsInvest m c
    · exact ih _ _ x hx

/-- C8: assuming non-negative current savings, monthly contribution and
monthly expense, and every monthly return factor greater than -100
percent, every value appended to the deterministic future_portfolio path
and to every Monte-Carlo sim_path is non-negative: the withdrawal and
Monte-Carlo steps clamp the corpus at 0 before recording it, and under
these assumptions the unclamped growth steps cannot go negative. -/
theorem projection_paths_nonneg (r savings contrib expense : ℚ)
    (ret : Nat → ℚ) (monthsInvest monthsRetire totalMonths : Nat)
    (hs : 0 ≤ savings) (hc : 0 ≤ contrib) (he : 0 ≤ expense) (hr : -1 < r)
    (hret : ∀ m, -1 < ret m) :
    ((future_portfolio r savings contrib expense monthsInvest
        monthsRetire).all (fun x => decide (0 ≤ x)) = true) ∧
    ((sim_path ret savings contrib expense monthsInvest totalMonths).all
        (fun x => decide (0 ≤ x)) = true) := by
  constructor
  · rw [List.all_eq_true]
    intro x hx
    rw [decide_eq_true_eq]
    unfold future_portfolio at hx
    rcases List.mem_append.mp hx with h1 | h2
    · exact growthPath_nonneg r contrib hr hc monthsInvest savings hs x h1
    · exact withdrawalPath_nonneg r expense monthsRetire _ x h2
  · rw [List.all_eq_true]
    intro x hx
    rw [decide_eq_true_eq]
    exact mcPathAux_nonneg ret contrib expense monthsInvest totalMonths
      savings 0 x hx

/-- Witness for C8 at concrete inputs: savings 1000, SIP 100, expense 50,
a constant monthly return of minus one half, two growth months, two
withdrawal months and four simulated months. -/
theorem projection_paths_nonneg_witness :
    ((future_portfolio (-1/2) 1000 100 50 2 2).all
        (fun x => decide (0 ≤ x)) = true) ∧
    ((sim_path (fun _ => -1/2) 1000 100 50 2 4).all
        (fun x => decide (0 ≤ x)) = true) :=
  projection_paths_nonneg (-1/2) 1000 100 50 (fun _ => -1/2) 2 2 4
    (by norm_num) (by norm_num) (by norm_num) (by norm_num)
    (fun _ => by norm_num)

end FreedomCalc

namespace ExpenseTracker

/-- C9: submitting one expense appends exactly one row holding the
submitted Date, Category, Amount and Description to the stored table and
leaves every previously stored row unchanged: the new stored table is the
old one followed by the single submitted row, so it is one row longer. -/
theorem add_expense_appends_one_row (s : Store) (d : DiviTrack.SDate)
    (cat : String) (amt : ℚ) (desc : String) :
    load_data (addExpense s d cat amt desc)
      = load_data s ++
          [{ date := d, category := cat, amount := amt,
             description := desc }] ∧
    (load_data (addExpense s d cat amt desc)).length
      = (load_data s).length + 1 := by
  constructor
  · rfl
  · simp [addExpense, load_data, save_data]

end ExpenseTracker
